/-
Verification of the IMMP / imirror message-bridge core against its
natural-language specification.

The development shallowly embeds the relevant Python source:
  * src/immp/plug/irc.py   - the IRC Line codec, timestamp generator,
                             message translation, wait/collect correlation,
                             inbound line handling and outbound `put`.
  * src/imirror/core/host.py - the Host registry (transports, channels).

Python strings are modelled as `List Char` (abbreviated `Str`) in the IRC
codec, so that parsing proofs can proceed by structural induction; the Host
registry, which needs no string analysis, uses Lean `String` keys directly.
Python exceptions are modelled by `Option`/`Except` results, raised before
any state mutation exactly where the source raises before mutating.
-/
import Mathlib

namespace IMMP

/-! ## Python dict helpers

Python dicts keyed by strings appear throughout (`Host.transports`,
`Host.channels`, `IRCPlug._data`).  They are modelled as association lists
in insertion order; assignment replaces in place when the key exists and
appends otherwise, `del` removes the key, iteration order is list order. -/

variable {κ : Type} {α : Type} [DecidableEq κ]

/-- Dict lookup: first binding of the key, scanning in insertion order. -/
def dlookup : List (κ × α) → κ → Option α
  | [], _ => none
  | (k, v) :: rest, key => if k = key then some v else dlookup rest key

/-- Dict assignment `d[k] = v`: replace in place if present, else append. -/
def dinsert : List (κ × α) → κ → α → List (κ × α)
  | [], key, v => [(key, v)]
  | (k, w) :: rest, key, v =>
      if k = key then (key, v) :: rest else (k, w) :: dinsert rest key v

/-- Dict deletion `del d[k]`: drop every binding of the key. -/
def ddelete (d : List (κ × α)) (key : κ) : List (κ × α) :=
  d.filter (fun p => decide (p.1 ≠ key))

/-! ## The IRC line codec (src/immp/plug/irc.py, class Line)

The decoder is the Python regex

  (?:@(?P<tags>[a-z0-9-]+(?:=[^; ]+)?(?:;[a-z0-9-]+(?:=[^; ]+)?)*) +)?
  (?::(?P<source>[^ ]+) +)?(?P<command>[a-z]+|[0-9]{3})
  (?P<args>(?: +[^: ][^ ]*)*)(?: +:(?P<trailing>.*))?       with re.I

applied with `re.match` (prefix match: trailing unmatched input is ignored).
Each optional prefix group here is deterministic: the group contents can
never consume the delimiter that terminates the group (tag and source
bodies exclude the space character), and when a leading group fails the
alternatives behind it fail on the group's sentinel character ('@' or ':'),
so a direct functional parser reproduces the regex's backtracking
behaviour exactly.  Case-insensitivity only affects letter classes; the
model uses ASCII letters, which covers the IRC wire alphabet. -/

/-- Python-string model: a string is its list of characters. -/
abbrev Str := List Char

/-- ASCII letter, the `[a-z]` class under `re.I` (codepoints 97-122 and
65-90). -/
def isAsciiAlpha (c : Char) : Bool :=
  (decide (97 ≤ c.toNat) && decide (c.toNat ≤ 122)) ||
  (decide (65 ≤ c.toNat) && decide (c.toNat ≤ 90))

/-- ASCII digit, the `[0-9]` class (codepoints 48-57). -/
def isDigitC (c : Char) : Bool := decide (48 ≤ c.toNat) && decide (c.toNat ≤ 57)

/-- Tag key characters: `[a-z0-9-]` under `re.I`. -/
def isTagKeyChar (c : Char) : Bool :=
  isAsciiAlpha c || isDigitC c || decide (c = '-')

/-- Tag value characters: `[^; ]`. -/
def isTagValChar (c : Char) : Bool := !(decide (c = ';') || decide (c = ' '))

/-- Whitespace for Python `str.split()` with no argument
(`Py_UNICODE_ISSPACE`): the ASCII set U+0009-U+000D, U+001C-U+001F and
U+0020, plus U+0085 (NEL), U+00A0 (NBSP), U+1680, the U+2000-U+200A run,
U+2028, U+2029, U+202F, U+205F and U+3000. -/
def isPyWs (c : Char) : Bool :=
  (decide (9 ≤ c.toNat) && decide (c.toNat ≤ 13)) ||
  (decide (28 ≤ c.toNat) && decide (c.toNat ≤ 32)) ||
  decide (c.toNat = 133) || decide (c.toNat = 160) ||
  decide (c.toNat = 5760) ||
  (decide (8192 ≤ c.toNat) && decide (c.toNat ≤ 8202)) ||
  decide (c.toNat = 8232) || decide (c.toNat = 8233) ||
  decide (c.toNat = 8239) || decide (c.toNat = 8287) ||
  decide (c.toNat = 12288)

/-- Value of an IRC message tag: bare keys carry Python `True`, `k=v` keys
carry the string value. -/
inductive TagVal : Type
  | flag : TagVal
  | str : Str → TagVal
  deriving DecidableEq

/-- `immp.plug.irc.Line`: command, positional args, optional source, tags. -/
structure Line : Type where
  command : Str
  args : List Str
  source : Option Str
  tags : List (Str × TagVal)
  deriving DecidableEq

namespace Line

/-- One `[a-z0-9-]+(?:=[^; ]+)?` tag item.  When the `=` is present but the
value is empty the optional value part fails and the `=` is left
unconsumed, as in the regex. -/
def tagItem (s : Str) : Option ((Str × TagVal) × Str) :=
  let k := s.takeWhile isTagKeyChar
  let r := s.dropWhile isTagKeyChar
  if k = [] then none
  else
    match r with
    | c :: r2 =>
        if c = '=' then
          let v := r2.takeWhile isTagValChar
          if v = [] then some ((k, TagVal.flag), r)
          else some ((k, TagVal.str v), r2.dropWhile isTagValChar)
        else some ((k, TagVal.flag), r)
    | [] => some ((k, TagVal.flag), r)

/-- The tag list `TAG(?:;TAG)*`.  A `;` not followed by a further tag is
left unconsumed and ends the list.  Fuel decreases every step; each step
consumes at least one character, so `length + 1` fuel always suffices. -/
def tagItems : Nat → Str → Option (List (Str × TagVal) × Str)
  | 0, _ => none
  | fuel + 1, s =>
      match tagItem s with
      | none => none
      | some (item, r) =>
          match r with
          | c :: r2 =>
              if c = ';' then
                match tagItems fuel r2 with
                | some (items, r3) => some (item :: items, r3)
                | none => some ([item], r)
              else some ([item], r)
          | [] => some ([item], r)

/-- The optional tag group `@TAGS +`: literal `@`, the tag list, then at
least one space (consumed). -/
def tryTags (s : Str) : Option (List (Str × TagVal) × Str) :=
  match s with
  | [] => none
  | c :: r =>
      if c = '@' then
        match tagItems (r.length + 1) r with
        | none => none
        | some (items, r2) =>
            match r2 with
            | c2 :: r3 =>
                if c2 = ' ' then some (items, r3.dropWhile (fun x => decide (x = ' ')))
                else none
            | [] => none
      else none

/-- The optional source group `:SOURCE +`: literal `:`, one or more
non-space characters, then at least one space (consumed). -/
def trySource (s : Str) : Option (Str × Str) :=
  match s with
  | [] => none
  | c :: r =>
      if c = ':' then
        let src := r.takeWhile (fun x => !decide (x = ' '))
        let r2 := r.dropWhile (fun x => !decide (x = ' '))
        if src = [] then none
        else
          match r2 with
          | c2 :: r3 =>
              if c2 = ' ' then some (src, r3.dropWhile (fun x => decide (x = ' ')))
              else none
          | [] => none
      else none

/-- The command token `[a-z]+|[0-9]{3}`: a maximal ASCII letter run, or
else exactly three digits. -/
def parseCmd (s : Str) : Option (Str × Str) :=
  let letters := s.takeWhile isAsciiAlpha
  if letters = [] then
    match s with
    | d1 :: d2 :: d3 :: r =>
        if isDigitC d1 && isDigitC d2 && isDigitC d3 then some ([d1, d2, d3], r)
        else none
    | _ => none
  else some (letters, s.dropWhile isAsciiAlpha)

/-- The positional-args group `(?: +[^: ][^ ]*)*`: returns the raw matched
region (the Python `argpart`) and the rest.  An iteration needs one or more
spaces followed by a character that is neither space nor `:`. -/
def parseArgsRaw : Nat → Str → Str × Str
  | 0, s => ([], s)
  | fuel + 1, s =>
      match s with
      | c :: _ =>
          if c = ' ' then
            let sp := s.takeWhile (fun x => decide (x = ' '))
            let r := s.dropWhile (fun x => decide (x = ' '))
            match r with
            | c2 :: _ =>
                if c2 = ':' then ([], s)
                else
                  let arg := r.takeWhile (fun x => !decide (x = ' '))
                  let r2 := r.dropWhile (fun x => !decide (x = ' '))
                  let (more, rest) := parseArgsRaw fuel r2
                  (sp ++ arg ++ more, rest)
            | [] => ([], s)
          else ([], s)
      | [] => ([], s)

/-- The optional trailing group `(?: +:(?P<trailing>.*))?`; `.` stops at a
newline, and anything after the match is ignored (`re.match` semantics). -/
def tryTrailing (s : Str) : Option Str :=
  match s with
  | c :: _ =>
      if c = ' ' then
        match s.dropWhile (fun x => decide (x = ' ')) with
        | c2 :: r2 => if c2 = ':' then some (r2.takeWhile (fun x => !decide (x = '\n'))) else none
        | [] => none
      else none
  | [] => none

/-- Python `argpart.split()`: split on runs of whitespace, no empty words.
Folding from the right, a whitespace character seeds a fresh (possibly
empty) word and a word character extends the current word; empty words are
dropped at the end. -/
def pySplitRaw (s : Str) : List Str :=
  s.foldr
    (fun c acc =>
      if isPyWs c then [] :: acc
      else
        match acc with
        | [] => [[c]]
        | w :: ws => (c :: w) :: ws)
    []

/-- Python `str.split()` with no separator argument. -/
def pySplit (s : Str) : List Str :=
  (pySplitRaw s).filter (fun w => decide (w ≠ []))

/-- `Line.parse`: decode a raw IRC line; `none` models the
`ValueError("Invalid line: ...")` raised when the regex does not match.
The tag dict is built item by item with later duplicates overwriting
earlier ones, and the trailing arg is appended only when non-empty
(`if trailing:`), both as in the source. -/
def parse (s : Str) : Option Line :=
  let (tagsItems, s1) :=
    match tryTags s with
    | some (t, r) => (t, r)
    | none => ([], s)
  let (src, s2) :=
    match trySource s1 with
    | some (sv, r) => (some sv, r)
    | none => (none, s1)
  match parseCmd s2 with
  | none => none
  | some (cmd, s3) =>
      let (argpart, s4) := parseArgsRaw (s3.length + 1) s3
      let args := pySplit argpart
      let args :=
        match tryTrailing s4 with
        | some t => if t = [] then args else args ++ [t]
        | none => args
      some { command := cmd, args := args, source := src,
             tags := tagsItems.foldl (fun d kv => dinsert d kv.1 kv.2) [] }

/-- `" ".join` suffix for the args of an encoded line: every arg but the
last is space-separated verbatim, the last is prefixed with `" :"`. -/
def argsSuffix : List Str → Str
  | [] => []
  | [a] => ' ' :: ':' :: a
  | a :: rest => ' ' :: a ++ argsSuffix rest

/-- The tag part of `Line.__str__`.  The source iterates the tag *dict*
directly (not `.items()`), so each iteration unpacks a key string into two
characters: a two-character key `kv` serialises as `k=v` (the dict value is
never consulted), and any key whose length is not exactly two raises
`ValueError` at encode time, modelled as `none`. -/
def tagsEncode : List (Str × TagVal) → Option Str
  | [] => some []
  | (k, _) :: rest =>
      match k with
      | [c1, c2] =>
          match tagsEncode rest with
          | none => none
          | some [] => some [c1, '=', c2]
          | some tl => some ([c1, '=', c2] ++ ';' :: tl)
      | _ => none

/-- `Line.__str__`: encode a line for transmission.  `none` models the
exception raised by the faulty tag serialisation on keys whose length is
not two; tag-free lines always encode. -/
def encode (l : Line) : Option Str :=
  let base := l.command
  let base :=
    match l.source with
    | some s => ':' :: s ++ ' ' :: base
    | none => base
  match l.tags with
  | [] => some (base ++ argsSuffix l.args)
  | _ :: _ =>
      match tagsEncode l.tags with
      | none => none
      | some tagpart => some ('@' :: tagpart ++ ' ' :: base ++ argsSuffix l.args)

/-- `Line.now`: the monotonic timestamp generator.  Takes the stored
`Line._last_ts` and the current wall-clock second `int(time.time())`,
returns the emitted value and the new stored value (Python returns
`str(ts)`; `Nat.repr` is injective, so the numeric value is proved
about). -/
def now (lastTs wall : Nat) : Nat × Nat :=
  let ts := max (lastTs + 1) wall
  (ts, ts)

end Line

/-- The space-separated join of the non-trailing args, as produced inside
`Line.__str__` by `" ".join`. -/
def midJoin : List Str → Str
  | [] => []
  | a :: rest => ' ' :: a ++ midJoin rest

/-- A command the decode grammar can recognise: a non-empty ASCII letter
run, or exactly three digits. -/
abbrev goodCmd (c : Str) : Prop :=
  (c ≠ [] ∧ ∀ ch ∈ c, isAsciiAlpha ch = true) ∨
  (c.length = 3 ∧ ∀ ch ∈ c, isDigitC ch = true)

/-- A non-trailing arg that survives the round trip: non-empty, free of
every character `str.split()` treats as whitespace, and without a leading
colon. -/
abbrev goodMidArg (a : Str) : Prop :=
  a ≠ [] ∧ (∀ ch ∈ a, isPyWs ch = false) ∧ a.head? ≠ some ':'

/-- A trailing arg that survives the round trip: non-empty (an empty
trailing arg is dropped by `if trailing:`) and newline-free (the regex `.`
stops at a newline). -/
abbrev goodLastArg (a : Str) : Prop := a ≠ [] ∧ '\n' ∉ a

/-- A source that survives the round trip: absent, or non-empty and
space-free (the grammar reads `[^ ]+` up to a space). -/
abbrev goodSource : Option Str → Prop
  | none => True
  | some s => s ≠ [] ∧ ' ' ∉ s

/-- A sequence of `Line.now` calls: starting from a stored `_last_ts` and
given the wall-clock second observed at each call, the list of returned
timestamps. -/
def nowSeq (lastTs : Nat) : List Nat → List Nat
  | [] => []
  | t :: ts =>
      let r := Line.now lastTs t
      r.1 :: nowSeq r.2 ts

/-! ## The Host registry (src/imirror/core/host.py)

`Host` keeps dicts of named transports and channels.  Transports are
Python objects compared by identity in `resolve_channel`; the model
compares them structurally, which coincides with identity as long as
distinct live transports differ in some field (they carry distinct
names).  Receivers and the `running` flag are carried for fidelity but no
claim touches them. -/

/-- A registered transport: only its name and connected flag are consulted
by the Host operations under study. -/
structure Transport : Type where
  name : String
  connected : Bool
  deriving DecidableEq

/-- `imirror.core.transport.Channel`: optional registered name, owning
transport, transport-specific source identifier (fields as constructed by
`Host.add_channel` and `Host.resolve_channel`). -/
structure HChannel : Type where
  name : Option String
  transport : Transport
  source : String
  deriving DecidableEq

/-- A registered receiver (opaque: no claim concerns receivers). -/
structure Receiver : Type where
  name : String
  deriving DecidableEq

/-- The Host state: `transports`, `channels` and `receivers` dicts plus the
`running` flag. -/
structure HostState : Type where
  transports : List (String × Transport)
  channels : List (String × HChannel)
  receivers : List (String × Receiver)
  running : Bool
  deriving DecidableEq

/-- Errors raised by Host operations: `ConfigError` and `RuntimeError`,
with the message text of the source. -/
inductive HostError : Type
  | configError : String → HostError
  | runtimeError : String → HostError
  deriving DecidableEq

/-- Outcome of `resolve_import` plus the `issubclass` check inside
`Host.create_transport`: the import may fail, resolve to a non-Transport
class, or yield a transport class, modelled as a constructor function from
the requested name. -/
inductive ImportOutcome : Type
  | importFailed
  | notTransportClass
  | transportClass : (String → Transport) → ImportOutcome

namespace HostState

/-- `Host.create_transport`: refuses a name that is already registered,
then surfaces import / subclass failures, else instantiates the class.
It registers nothing; `add_transport` does that separately. -/
def createTransport (st : HostState) (name : String) (imported : ImportOutcome) :
    Except HostError Transport :=
  if (dlookup st.transports name).isSome then
    Except.error (HostError.configError
      ("Transport name '" ++ name ++ "' already registered"))
  else
    match imported with
    | ImportOutcome.importFailed =>
        Except.error (HostError.configError "Error trying to import transport class")
    | ImportOutcome.notTransportClass =>
        Except.error (HostError.configError "Transport class not a valid subclass")
    | ImportOutcome.transportClass mkT => Except.ok (mkT name)

/-- `Host.add_transport`: unconditional dict assignment
`self.transports[transport.name] = transport` — no duplicate check. -/
def addTransport (st : HostState) (t : Transport) : HostState :=
  { st with transports := dinsert st.transports t.name t }

/-- `Host.remove_transport`: `RuntimeError` when the name is unknown or the
transport is still connected, both raised before the deletion. -/
def removeTransport (st : HostState) (name : String) : Except HostError HostState :=
  match dlookup st.transports name with
  | none =>
      Except.error (HostError.runtimeError
        ("Transport '" ++ name ++ "' not registered to host"))
  | some t =>
      if t.connected then
        Except.error (HostError.runtimeError ("Transport '" ++ name ++ "' still connected"))
      else Except.ok { st with transports := ddelete st.transports name }

/-- `Host.add_channel`: `ConfigError` on a duplicate channel name or an
unknown transport name, both raised before the dict assignment. -/
def addChannel (st : HostState) (name transport source : String) :
    Except HostError HostState :=
  if (dlookup st.channels name).isSome then
    Except.error (HostError.configError
      ("Channel name '" ++ name ++ "' already registered"))
  else
    match dlookup st.transports transport with
    | none =>
        Except.error (HostError.configError
          ("Channel transport '" ++ name ++ "' not registered"))
    | some t =>
        Except.ok
          { st with channels := dinsert st.channels name ⟨some name, t, source⟩ }

/-- `Host.resolve_channel`: linear scan of the registered channels in
insertion order for the first with matching `(transport, source)`; when
none matches, a fresh unnamed channel is synthesised.  Total, and a pure
function of the state: the registries are never touched. -/
def resolveChannel (st : HostState) (t : Transport) (source : String) : HChannel :=
  match (st.channels.map Prod.snd).find?
      (fun ch => decide (ch.transport = t ∧ ch.source = source)) with
  | some ch => ch
  | none => ⟨none, t, source⟩

end HostState

/-! ## The IRC plug (src/immp/plug/irc.py, classes IRCMessage / IRCPlug)

The immp core (`immp.User`, `immp.Channel`, `immp.SentMessage`,
`immp.Plug.queue`) is not part of the sources; those value types are
modelled from the spec, restricted to the fields the IRC plug constructs
and reads.  `Line._last_ts` and `int(time.time())` are threaded explicitly
as `(lastTs, wall)`. -/

/-- Modelled from the spec: immp `User` (§3) — identity string, optional
username and real name; the plug back-reference and raw payload carry no
information the claims consult. -/
structure User : Type where
  id : Str
  username : Option Str
  realName : Option Str
  deriving DecidableEq

/-- Modelled from the spec: immp `Channel` (§3) for the single connection
under study — the backend-local source identifier (the connection
reference is the plug itself). -/
structure IChannel : Type where
  source : Str
  deriving DecidableEq

/-- Modelled from the spec: immp `SentMessage` (§3 Message) with the fields
`IRCMessage.from_line` populates. -/
structure SentMessage : Type where
  id : Nat
  channel : IChannel
  user : User
  text : Str
  action : Bool
  joined : List User
  left : List User
  raw : Line
  deriving DecidableEq

/-- Python `s.split("!", 1)[0]`: the prefix before the first `!`, or the
whole string when there is none. -/
def pyNickOf (s : Str) : Str := s.takeWhile (fun c => !decide (c = '!'))

/-- Strip a literal from the front of a string, or fail. -/
def stripLiteral : Str → Str → Option Str
  | [], s => some s
  | _ :: _, [] => none
  | c :: cs, x :: xs => if x = c then stripLiteral cs xs else none

/-- `re.match(r"\x01ACTION ([^\x01]*)\x01", text)` applied as a prefix
match: the CTCP ACTION wrapper; anything after the closing `\x01` is
ignored.  Returns the captured group when the input matches. -/
def ctcpAction (t : Str) : Option Str :=
  match stripLiteral (Char.ofNat 1 :: "ACTION ".data) t with
  | none => none
  | some rest =>
      let inner := rest.takeWhile (fun c => !decide (c = Char.ofNat 1))
      match rest.dropWhile (fun c => !decide (c = Char.ofNat 1)) with
      | _ :: _ => some inner
      | [] => none

/-- The PRIVMSG command token (named so that proof-side rewriting treats
it atomically; likewise the tokens below). -/
def privmsgCmd : Str := "PRIVMSG".data

/-- The JOIN command token. -/
def joinCmd : Str := "JOIN".data

/-- The PART command token. -/
def partCmd : Str := "PART".data

/-- The PING command token. -/
def pingCmd : Str := "PING".data

/-- The `"joined "` action-text stem of `IRCMessage.from_line`. -/
def joinedText : Str := "joined ".data

/-- The `"left "` action-text stem of `IRCMessage.from_line`. -/
def leftText : Str := "left ".data

/-- `IRCMessage.from_line`: translate a `Line` into a sent message.
`nick` is `config["user"]["nick"]`; a first argument equal to it is
redirected to the sender's nick (private-message redirection).  `none`
models the exceptions on a line without args (`line.args[0]`), without a
source (`line.source.split`), or a non-JOIN/PART line with a single arg
(`line.args[1]`).  Returns the message together with the updated
`Line._last_ts`. -/
def fromLine (nick : Str) (line : Line) (lastTs wall : Nat) :
    Option (SentMessage × Nat) :=
  match line.args with
  | [] => none
  | a0 :: restArgs =>
      match line.source with
      | none => none
      | some src =>
          let senderNick := pyNickOf src
          let channel := if a0 = nick then senderNick else a0
          let user : User := ⟨src, some senderNick, none⟩
          if line.command = joinCmd then
            let ts := Line.now lastTs wall
            some ({ id := ts.1, channel := ⟨channel⟩, user := user,
                    text := joinedText ++ channel, action := true,
                    joined := [user], left := [], raw := line }, ts.2)
          else if line.command = partCmd then
            let ts := Line.now lastTs wall
            some ({ id := ts.1, channel := ⟨channel⟩, user := user,
                    text := leftText ++ channel, action := true,
                    joined := [], left := [user], raw := line }, ts.2)
          else
            match restArgs with
            | [] => none
            | a1 :: _ =>
                let ta : Str × Bool :=
                  match ctcpAction a1 with
                  | some inner => (inner, true)
                  | none => (a1, false)
                let ts := Line.now lastTs wall
                some ({ id := ts.1, channel := ⟨channel⟩, user := user,
                        text := ta.1, action := ta.2,
                        joined := [], left := [], raw := line }, ts.2)

/-- The `IRCPlug` mutable state.  `source` is `self._source`, the bot's
own prefix, assumed registered (it is set during `start()` before any of
the behaviour under study runs).  `waits` keeps the command sets of
registered waiters (`self._waits`; the paired `Condition` objects model
control flow only).  `queue` is the plug's inbound event stream — modelled
from the spec (§4.2 `produce()`): `Plug.queue` appends a message to the
sequence of events the engine consumes, as its caller in `handle` shows.
`written` records the lines passed to `self.write` (encoded to the wire at
call time). -/
structure IRCState : Type where
  nick : Str
  realName : Str
  source : Str
  waits : List (List Str)
  data : List (Str × List Line)
  joins : List Str
  lastTs : Nat
  queue : List SentMessage
  written : List Line
  deriving DecidableEq

namespace IRCPlug

/-- `IRCPlug.handle`: buffer the line if its command has a registered
collect/fail buffer; answer PING; translate JOIN/PART/PRIVMSG into a
message, dropping the first self-join of a channel recorded in
`self._joins` instead of queueing it; on 433 mutate the nick and resend
registration.  Condition notification carries no modelled state.  `none`
models an exception escaping `IRCMessage.from_line`. -/
def handle (st : IRCState) (wall : Nat) (line : Line) : Option IRCState :=
  let st1 :=
    match dlookup st.data line.command with
    | some buf => { st with data := dinsert st.data line.command (buf ++ [line]) }
    | none => st
  if line.command = pingCmd then
    some { st1 with written := st1.written ++ [⟨"PONG".data, line.args, none, []⟩] }
  else if line.command = joinCmd ∨ line.command = partCmd ∨
      line.command = privmsgCmd then
    match fromLine st1.nick line st1.lastTs wall with
    | none => none
    | some (sent, ts) =>
        let st2 := { st1 with lastTs := ts }
        let selfJoin : Bool :=
          match sent.joined with
          | u :: _ => decide (u.username = some (pyNickOf st2.source))
          | [] => false
        if selfJoin && decide (sent.channel.source ∈ st2.joins) then
          some { st2 with joins := st2.joins.erase sent.channel.source }
        else
          some { st2 with queue := st2.queue ++ [sent] }
  else if line.command = "433".data then
    let newNick := st1.nick ++ "_".data
    some { st1 with
           nick := newNick
           written := st1.written ++
             [⟨"NICK".data, [newNick], none, []⟩,
              ⟨"USER".data, ["immp".data, "0".data, "*".data, st1.realName], none, []⟩] }
  else some st1

/-- The registration half of `IRCPlug.wait` (lines up to the block on the
condition): refuse when any fail/collect command already has a buffer
(`RuntimeError("Already listening for collected commands")`, raised before
any mutation), else install empty buffers and append the waiter pair. -/
def waitRegister (st : IRCState) (success : Str) (fail collect : List Str) :
    Except String IRCState :=
  if (fail ++ collect).any (fun c => (dlookup st.data c).isSome) then
    Except.error "Already listening for collected commands"
  else
    Except.ok { st with
      data := (fail ++ collect).foldl (fun d c => dinsert d c []) st.data
      waits := st.waits ++ [success :: fail] }

/-- `any(self._data[command] for command in fail)`: lazily scan the fail
commands; `none` models the KeyError on a missing buffer. -/
def anyBuffered : List Str → List (Str × List Line) → Option Bool
  | [], _ => some false
  | c :: rest, d =>
      match dlookup d c with
      | none => none
      | some buf => if buf ≠ [] then some true else anyBuffered rest d

/-- `{command: self._data[command] for command in collect}`; `none` models
the KeyError on a missing buffer. -/
def collectData : List Str → List (Str × List Line) → Option (List (Str × List Line))
  | [], _ => some []
  | c :: rest, d =>
      match dlookup d c with
      | none => none
      | some buf =>
          match collectData rest d with
          | none => none
          | some tl => some ((c, buf) :: tl)

/-- The completion half of `IRCPlug.wait` (lines after the condition
fires): drop the waiter pair, then — exactly as the source orders it —
raise `ValueError("Received error response")` when any fail buffer is
non-empty *before* the buffer-deletion loop runs, so on the failure path
the buffers stay in `self._data`; on the success path collect the buffered
lines by command and delete every fail/collect buffer. -/
def waitFinish (st : IRCState) (success : Str) (fail collect : List Str) :
    Option ((Except String (List (Str × List Line))) × IRCState) :=
  let st1 := { st with waits := st.waits.erase (success :: fail) }
  match anyBuffered fail st1.data with
  | none => none
  | some true => some (Except.error "Received error response", st1)
  | some false =>
      match collectData collect st1.data with
      | none => none
      | some collected =>
          let st2 := { st1 with
            data := (fail ++ collect).foldl (fun d c => ddelete d c) st1.data }
          some (Except.ok collected, st2)

end IRCPlug

/-! ## Outbound rendering and `IRCPlug.put` -/

/-- `immp.Segment` restricted to the attributes `IRCSegment.to_formatted`
reads. -/
structure Segment : Type where
  text : Str
  bold : Bool
  italic : Bool
  underline : Bool
  strike : Bool
  deriving DecidableEq

/-- `immp.RichText`: an ordered sequence of segments. -/
abbrev RichText := List Segment

namespace IRCSegment

/-- `IRCSegment.to_formatted`: wrap the text in IRC control characters for
each set attribute (bold \x02, italic \x1d, underline \x1f, strike as grey
colour \x0314 ... \x0399,99). -/
def to_formatted (s : Segment) : Str :=
  let t := s.text
  let t := if s.bold then Char.ofNat 2 :: t ++ [Char.ofNat 2] else t
  let t := if s.italic then Char.ofNat 29 :: t ++ [Char.ofNat 29] else t
  let t := if s.underline then Char.ofNat 31 :: t ++ [Char.ofNat 31] else t
  let t := if s.strike then
      (Char.ofNat 3 :: "14".data) ++ t ++ (Char.ofNat 3 :: "99,99".data)
    else t
  t

end IRCSegment

namespace IRCRichText

/-- `IRCRichText.to_formatted`: concatenate the formatted segments and
replace every tab with a space. -/
def to_formatted (rich : RichText) : Str :=
  ((rich.map IRCSegment.to_formatted).flatten).map (fun c => if c = '\t' then ' ' else c)

end IRCRichText

/-- A message text payload: either parsed rich text or a plain string
(`IRCPlug._lines` accepts both and wraps a plain string in a single
attribute-free segment). -/
inductive MsgText : Type
  | rich : RichText → MsgText
  | plain : Str → MsgText
  deriving DecidableEq

/-- Python truthiness of a text payload: empty rich text and the empty
string are falsy. -/
def MsgText.truthy : MsgText → Bool
  | MsgText.rich segs => decide (segs ≠ [])
  | MsgText.plain s => decide (s ≠ [])

/-- Python `"abc".split("\n")`: split at newlines, keeping empty pieces. -/
def splitNl : Str → List Str
  | [] => [[]]
  | c :: rest =>
      if c = '\n' then [] :: splitNl rest
      else
        match splitNl rest with
        | w :: ws => (c :: w) :: ws
        | [] => [[c]]

/-- `user.username or user.real_name`, rendered with `"{}".format`: a falsy
username falls back to the real name, and `None` renders as the string
`"None"`. -/
def pyUserLabel (u : User) : Str :=
  let fallback :=
    match u.realName with
    | some r => r
    | none => "None".data
  match u.username with
  | some s => if s = [] then fallback else s
  | none => fallback

/-- An attachment as `IRCPlug.put` discriminates them: a File or Location
(carrying its `str(attach)` rendering, which the missing immp core
defines), a quoted immp `SentMessage` (with its `empty` flag), or a plain
quoted `Message`. -/
inductive Attachment : Type
  | afile : Str → Attachment
  | alocation : Str → Attachment
  | asent : Bool → Option MsgText → Option User → Bool → Bool → Attachment
  | amsg : Option MsgText → Option User → Bool → Attachment
  deriving DecidableEq

/-- An outbound `immp.Message` as consumed by `IRCPlug.put` (restricted to
the fields it reads; `isSent` is the `isinstance(msg, immp.SentMessage)`
discrimination). -/
structure OutMessage : Type where
  text : Option MsgText
  user : Option User
  action : Bool
  isSent : Bool
  edited : Bool
  attachments : List Attachment
  deriving DecidableEq

namespace IRCPlug

/-- `IRCPlug._lines`: format rich (or plain) text for the wire, one entry
per newline-separated line, with speaker label, edit marker and CTCP
ACTION wrapping. -/
def lines (rich : MsgText) (user : Option User) (action edited : Bool) : List Str :=
  if rich.truthy = false then []
  else
    let rt : RichText :=
      match rich with
      | MsgText.rich segs => segs
      | MsgText.plain s => [⟨s, false, false, false, false⟩]
    (splitNl (IRCRichText.to_formatted rt)).map (fun text0 =>
      let text1 :=
        match user with
        | some u =>
            if action then "* ".data ++ pyUserLabel u ++ ' ' :: text0
            else '<' :: pyUserLabel u ++ '>' :: ' ' :: text0
        | none => text0
      let text2 := if edited then "[edit] ".data ++ text1 else text1
      if user.isNone && action then
        Char.ofNat 1 :: "ACTION ".data ++ text2 ++ [Char.ofNat 1]
      else text2)

/-- The full list of wire texts `IRCPlug.put` sends for one message: its
own text first, then one action line per File/Location attachment and the
text of each quoted non-empty message. -/
def putLines (msg : OutMessage) : List Str :=
  let edited := msg.isSent && msg.edited
  let own :=
    match msg.text with
    | some t => lines t msg.user msg.action edited
    | none => []
  let fromAttach := msg.attachments.map (fun a =>
    match a with
    | Attachment.afile r =>
        lines (MsgText.plain ("uploaded a file".data ++
          (if r ≠ [] then ": ".data ++ r else []))) msg.user true edited
    | Attachment.alocation r =>
        lines (MsgText.plain ("shared a location: ".data ++ r)) msg.user true edited
    | Attachment.asent empty text u act ed =>
        if empty then []
        else
          match text with
          | some t => if t.truthy then lines t u act ed else []
          | none => []
    | Attachment.amsg text u act =>
        match text with
        | some t => if t.truthy then lines t u act false else []
        | none => [])
  own ++ fromAttach.flatten

/-- The send loop of `IRCPlug.put`: for each text, write
`Line("PRIVMSG", channel.source, text)` (encoded before the source field
is mutated), then set the line's source to the bot's own prefix, translate
it back through `IRCMessage.from_line`, queue the echo on the inbound
stream and record its id. -/
def putGo (ch : IChannel) (wall : Nat) (st : IRCState) :
    List Str → Option (List Nat × IRCState)
  | [] => some ([], st)
  | text :: rest =>
      match fromLine st.nick ⟨privmsgCmd, [ch.source, text], some st.source, []⟩
          st.lastTs wall with
      | none => none
      | some (sent, ts) =>
          match putGo ch wall
              { st with
                written := st.written ++ [⟨privmsgCmd, [ch.source, text], none, []⟩]
                queue := st.queue ++ [sent]
                lastTs := ts } rest with
          | none => none
          | some (ids, st2) => some (sent.id :: ids, st2)

/-- `IRCPlug.put`: render the message to wire texts and run the send
loop, returning the ids of the sent (and echoed) messages. -/
def put (st : IRCState) (wall : Nat) (ch : IChannel) (msg : OutMessage) :
    Option (List Nat × IRCState) :=
  putGo ch wall st (putLines msg)

end IRCPlug

end IMMP

namespace IMMP

/-! ## Lemmas: dict helpers -/

theorem dlookup_dinsert {κ α : Type} [DecidableEq κ] (d : List (κ × α)) (k : κ) (v : α) :
    dlookup (dinsert d k v) k = some v := by
  induction d with
  | nil => simp [dinsert, dlookup]
  | cons p rest ih =>
      obtain ⟨k0, v0⟩ := p
      by_cases h : k0 = k
      · simp [dinsert, dlookup, h]
      · simp [dinsert, dlookup, h, ih]

theorem dlookup_dinsert_ne {κ α : Type} [DecidableEq κ] (d : List (κ × α))
    (k k0 : κ) (v : α) (h : k0 ≠ k) :
    dlookup (dinsert d k v) k0 = dlookup d k0 := by
  have hne : ¬ (k = k0) := fun hh => h hh.symm
  induction d with
  | nil => simp [dinsert, dlookup, hne]
  | cons p rest ih =>
      obtain ⟨k1, v1⟩ := p
      by_cases h1 : k1 = k
      · subst h1
        simp [dinsert, dlookup, hne]
      · by_cases h2 : k1 = k0 <;> simp [dinsert, dlookup, h1, h2, h, ih]

/-! ## Lemmas: takeWhile / dropWhile splitting -/

theorem takeWhile_app (p : Char → Bool) (l r : Str)
    (hl : ∀ c ∈ l, p c = true) (hr : ∀ c cs, r = c :: cs → p c = false) :
    (l ++ r).takeWhile p = l := by
  induction l with
  | nil =>
      cases r with
      | nil => rfl
      | cons c cs => simp [List.takeWhile_cons, hr c cs rfl]
  | cons c l ih =>
      have hc : p c = true := hl c (by simp)
      simp only [List.cons_append, List.takeWhile_cons, hc, if_true]
      rw [ih (fun x hx => hl x (by simp [hx]))]

theorem dropWhile_app (p : Char → Bool) (l r : Str)
    (hl : ∀ c ∈ l, p c = true) (hr : ∀ c cs, r = c :: cs → p c = false) :
    (l ++ r).dropWhile p = r := by
  induction l with
  | nil =>
      cases r with
      | nil => rfl
      | cons c cs => simp [List.dropWhile_cons, hr c cs rfl]
  | cons c l ih =>
      have hc : p c = true := hl c (by simp)
      simp only [List.cons_append, List.dropWhile_cons, hc, if_true]
      exact ih (fun x hx => hl x (by simp [hx]))

theorem dropWhile_head_neg (p : Char → Bool) (c : Char) (r : Str) (h : p c = false) :
    (c :: r).dropWhile p = c :: r := by
  simp [List.dropWhile_cons, h]

end IMMP

namespace IMMP

/-! ## Lemmas: character classes -/

theorem bool_pred_ne {p : Char → Bool} {c x : Char} (h : p c = true) (hx : p x = false) :
    c ≠ x := by
  intro he
  rw [he, hx] at h
  cases h

theorem alpha_not_digit {c : Char} (h : isDigitC c = true) : isAsciiAlpha c = false := by
  simp [isDigitC] at h
  simp [isAsciiAlpha]
  omega

theorem not_ws_ne_space {c : Char} (h : isPyWs c = false) : c ≠ ' ' := by
  intro he
  rw [he] at h
  exact absurd h (by decide)

/-! ## Lemmas: decoder components on encoder output -/

theorem tryTags_not_at (c : Char) (r : Str) (h : c ≠ '@') :
    Line.tryTags (c :: r) = none := by
  simp [Line.tryTags, h]

theorem trySource_not_at (c : Char) (r : Str) (h : c ≠ ':') :
    Line.trySource (c :: r) = none := by
  simp [Line.trySource, h]

theorem trySource_app (s rest : Str) (hne : s ≠ []) (hsp : ∀ ch ∈ s, ch ≠ ' ')
    (hrest : ∀ c cs, rest = c :: cs → c ≠ ' ') :
    Line.trySource (':' :: (s ++ ' ' :: rest)) = some (s, rest) := by
  have htake : (s ++ ' ' :: rest).takeWhile (fun x => !decide (x = ' ')) = s := by
    apply takeWhile_app
    · intro c hc; simpa using hsp c hc
    · intro c cs hcs
      cases hcs
      simp
  have hdrop : (s ++ ' ' :: rest).dropWhile (fun x => !decide (x = ' ')) = ' ' :: rest := by
    apply dropWhile_app
    · intro c hc; simpa using hsp c hc
    · intro c cs hcs
      cases hcs
      simp
  have hdrop2 : rest.dropWhile (fun x => decide (x = ' ')) = rest := by
    cases hr : rest with
    | nil => rfl
    | cons c cs =>
        apply dropWhile_head_neg
        simpa using hrest c cs hr
  simp only [Line.trySource, if_true]
  rw [htake, hdrop]
  simp [hne, hdrop2]

theorem parseCmd_app (cmd tail : Str) (hc : goodCmd cmd)
    (htail : ∀ c cs, tail = c :: cs → c = ' ') :
    Line.parseCmd (cmd ++ tail) = some (cmd, tail) := by
  have htail2 : ∀ c cs, tail = c :: cs → isAsciiAlpha c = false := by
    intro c cs hcs
    rw [htail c cs hcs]
    decide
  rcases hc with ⟨hne, hall⟩ | ⟨hlen, hall⟩
  · have htake : (cmd ++ tail).takeWhile isAsciiAlpha = cmd :=
      takeWhile_app _ _ _ hall htail2
    have hdrop : (cmd ++ tail).dropWhile isAsciiAlpha = tail :=
      dropWhile_app _ _ _ hall htail2
    simp [Line.parseCmd, htake, hdrop, hne]
  · match cmd, hlen with
    | [d1, d2, d3], _ =>
        have h1 : isDigitC d1 = true := hall d1 (by simp)
        have h2 : isDigitC d2 = true := hall d2 (by simp)
        have h3 : isDigitC d3 = true := hall d3 (by simp)
        have htake : ([d1, d2, d3] ++ tail).takeWhile isAsciiAlpha = [] := by
          simp [List.takeWhile_cons, alpha_not_digit h1]
        simp only [Line.parseCmd]
        rw [htake]
        simp [h1, h2, h3]

theorem midJoin_app_head (mids : List Str) (tail : Str)
    (htail : tail = [] ∨ ∃ r, tail = ' ' :: ':' :: r) :
    midJoin mids ++ tail = [] ∨ ∃ xs, midJoin mids ++ tail = ' ' :: xs := by
  cases mids with
  | nil =>
      rcases htail with h | ⟨r, h⟩
      · left; simp [midJoin, h]
      · right; exact ⟨':' :: r, by simp [midJoin, h]⟩
  | cons a rest =>
      right
      exact ⟨a ++ midJoin rest ++ tail, by simp [midJoin]⟩

end IMMP

namespace IMMP

theorem takeWhile_all (p : Char → Bool) (l : Str) (hl : ∀ c ∈ l, p c = true) :
    l.takeWhile p = l := by
  have := takeWhile_app p l [] hl (by intro c cs h; cases h)
  simpa using this

theorem parseArgsRaw_mid (mids : List Str) :
    ∀ (fuel : Nat) (tail : Str), (∀ a ∈ mids, goodMidArg a) →
      (tail = [] ∨ ∃ r, tail = ' ' :: ':' :: r) → mids.length + 1 ≤ fuel →
      Line.parseArgsRaw fuel (midJoin mids ++ tail) = (midJoin mids, tail) := by
  induction mids with
  | nil =>
      intro fuel tail _ htail hfuel
      match fuel, hfuel with
      | f + 1, _ =>
          rcases htail with h | ⟨r, h⟩ <;> subst h
          · rfl
          · simp [midJoin, Line.parseArgsRaw, List.takeWhile_cons]
  | cons a mids ih =>
      intro fuel tail hgood htail hfuel
      obtain ⟨ha, hws, hcolon⟩ := hgood a (by simp)
      obtain ⟨c0, a', rfl⟩ : ∃ c0 a', a = c0 :: a' := by
        cases a with
        | nil => exact absurd rfl ha
        | cons c0 a' => exact ⟨c0, a', rfl⟩
      have hc0sp : c0 ≠ ' ' := not_ws_ne_space (hws c0 (by simp))
      have hc0co : c0 ≠ ':' := by
        intro he
        apply hcolon
        simp [he]
      match fuel, hfuel with
      | f + 1, hfuel =>
          have hfuel2 : mids.length + 1 ≤ f := by
            simp at hfuel
            omega
          have hmid : (c0 :: a') ++ midJoin mids ++ tail = [] ∨
              ∃ c cs, (c0 :: a') ++ midJoin mids ++ tail = c :: cs := by
            right; exact ⟨c0, a' ++ midJoin mids ++ tail, by simp⟩
          -- the argument body: no spaces inside, terminator is [] or a space
          have hterm := midJoin_app_head mids tail htail
          have htakeArg : ((c0 :: a') ++ (midJoin mids ++ tail)).takeWhile
              (fun x => !decide (x = ' ')) = c0 :: a' := by
            apply takeWhile_app
            · intro c hc
              simp [not_ws_ne_space (hws c hc)]
            · intro c cs hcs
              rcases hterm with h | ⟨xs, h⟩
              · rw [h] at hcs; cases hcs
              · rw [h] at hcs
                cases hcs
                simp
          have hdropArg : ((c0 :: a') ++ (midJoin mids ++ tail)).dropWhile
              (fun x => !decide (x = ' ')) = midJoin mids ++ tail := by
            apply dropWhile_app
            · intro c hc
              simp [not_ws_ne_space (hws c hc)]
            · intro c cs hcs
              rcases hterm with h | ⟨xs, h⟩
              · rw [h] at hcs; cases hcs
              · rw [h] at hcs
                cases hcs
                simp
          have htakeSp : (' ' :: ((c0 :: a') ++ (midJoin mids ++ tail))).takeWhile
              (fun x => decide (x = ' ')) = [' '] := by
            simp [List.takeWhile_cons, hc0sp]
          have hdropSp : (' ' :: ((c0 :: a') ++ (midJoin mids ++ tail))).dropWhile
              (fun x => decide (x = ' ')) = (c0 :: a') ++ (midJoin mids ++ tail) := by
            simp [List.dropWhile_cons, hc0sp]
          have hrec := ih f tail (fun x hx => hgood x (by simp [hx])) htail hfuel2
          show Line.parseArgsRaw (f + 1) (midJoin ((c0 :: a') :: mids) ++ tail) = _
          have hshape : midJoin ((c0 :: a') :: mids) ++ tail =
              ' ' :: ((c0 :: a') ++ (midJoin mids ++ tail)) := by
            simp [midJoin]
          rw [hshape]
          simp only [Line.parseArgsRaw, if_true]
          rw [htakeSp, hdropSp]
          simp only [List.cons_append] at htakeArg hdropArg ⊢
          rw [if_neg hc0co, htakeArg, hdropArg, hrec]
          simp [midJoin]


theorem tryTrailing_app (last : Str) (hnl : ∀ ch ∈ last, ch ≠ '\n') :
    Line.tryTrailing (' ' :: ':' :: last) = some last := by
  have hdrop : (' ' :: ':' :: last).dropWhile (fun x => decide (x = ' ')) = ':' :: last := by
    simp [List.dropWhile_cons]
  have htake : last.takeWhile (fun x => !decide (x = '\n')) = last := by
    apply takeWhile_all
    intro c hc
    simp [hnl c hc]
  simp only [Line.tryTrailing, if_true]
  rw [hdrop]
  simp [htake]

theorem pySplitRaw_ws (c : Char) (t : Str) (h : isPyWs c = true) :
    Line.pySplitRaw (c :: t) = [] :: Line.pySplitRaw t := by
  simp [Line.pySplitRaw, h]

theorem pySplitRaw_word (a t : Str) (ha : a ≠ [])
    (hws : ∀ ch ∈ a, isPyWs ch = false) :
    Line.pySplitRaw (a ++ t) =
      (match Line.pySplitRaw t with
       | [] => [a]
       | w :: ws => (a ++ w) :: ws) := by
  induction a with
  | nil => exact absurd rfl ha
  | cons c a ih =>
      have hc : isPyWs c = false := hws c (by simp)
      have hstep : Line.pySplitRaw ((c :: a) ++ t) =
          (match Line.pySplitRaw (a ++ t) with
           | [] => [[c]]
           | w :: ws => (c :: w) :: ws) := by
        simp only [List.cons_append, Line.pySplitRaw, List.foldr_cons, hc]
        simp
      cases a with
      | nil =>
          rw [hstep]
          simp only [List.nil_append]
          cases Line.pySplitRaw t <;> simp
      | cons c2 a2 =>
          rw [hstep, ih (by simp) (fun x hx => hws x (by simp [hx]))]
          cases Line.pySplitRaw t <;> simp

theorem pySplit_midJoin (mids : List Str) (h : ∀ a ∈ mids, goodMidArg a) :
    Line.pySplit (midJoin mids) = mids := by
  induction mids with
  | nil => rfl
  | cons a mids ih =>
      obtain ⟨ha, hws, _⟩ := h a (by simp)
      have ih2 := ih (fun x hx => h x (by simp [hx]))
      have hword := pySplitRaw_word a (midJoin mids) ha hws
      have hstep : Line.pySplit (midJoin (a :: mids)) =
          List.filter (fun w => decide (w ≠ [])) (Line.pySplitRaw (a ++ midJoin mids)) := by
        have hmj : midJoin (a :: mids) = ' ' :: (a ++ midJoin mids) := by simp [midJoin]
        have hraw : Line.pySplitRaw (' ' :: (a ++ midJoin mids)) =
            [] :: Line.pySplitRaw (a ++ midJoin mids) :=
          pySplitRaw_ws ' ' (a ++ midJoin mids) (by decide)
        simp only [Line.pySplit, hmj, hraw]
        simp [List.filter_cons]
      cases mids with
      | nil =>
          rw [hstep]
          have hval : Line.pySplitRaw (a ++ midJoin ([] : List Str)) = [a] := by
            rw [hword]
            rfl
          rw [hval]
          simp [List.filter_cons, ha]
      | cons b rest =>
          have hY : Line.pySplitRaw (midJoin (b :: rest)) =
              [] :: Line.pySplitRaw (b ++ midJoin rest) := by
            have hmj2 : midJoin (b :: rest) = ' ' :: (b ++ midJoin rest) := by
              simp [midJoin]
            rw [hmj2]
            exact pySplitRaw_ws _ _ (by decide)
          have ih3 : List.filter (fun w => !decide (w = []))
              (Line.pySplitRaw (b ++ midJoin rest)) = b :: rest := by
            have h4 := ih2
            simp only [Line.pySplit, hY] at h4
            simpa using h4
          rw [hstep, hword, hY]
          simp only [List.append_nil]
          simp [List.filter_cons, ha, ih3]

theorem argsSuffix_concat (mids : List Str) (last : Str) :
    Line.argsSuffix (mids ++ [last]) = midJoin mids ++ (' ' :: ':' :: last) := by
  induction mids with
  | nil => simp [Line.argsSuffix, midJoin]
  | cons a mids ih =>
      cases mids with
      | nil => simp [Line.argsSuffix, midJoin]
      | cons b mids' =>
          have hstep : Line.argsSuffix (a :: (b :: (mids' ++ [last]))) =
              ' ' :: a ++ Line.argsSuffix (b :: (mids' ++ [last])) := rfl
          show Line.argsSuffix (a :: (b :: mids' ++ [last])) = _
          simp only [List.cons_append] at ih ⊢
          rw [hstep, ih]
          simp [midJoin]

theorem midJoin_length (mids : List Str) : mids.length ≤ (midJoin mids).length := by
  induction mids with
  | nil => simp [midJoin]
  | cons a mids ih =>
      simp only [midJoin, List.length_cons, List.cons_append, List.length_append]
      omega

end IMMP

namespace IMMP

theorem goodCmd_head (cmd : Str) (hc : goodCmd cmd) :
    ∃ c0 t, cmd = c0 :: t ∧ (isAsciiAlpha c0 = true ∨ isDigitC c0 = true) := by
  rcases hc with ⟨hne, hall⟩ | ⟨hlen, hall⟩
  · cases cmd with
    | nil => exact absurd rfl hne
    | cons c0 t => exact ⟨c0, t, rfl, Or.inl (hall c0 (by simp))⟩
  · cases cmd with
    | nil => simp at hlen
    | cons c0 t => exact ⟨c0, t, rfl, Or.inr (hall c0 (by simp))⟩

theorem argsSuffix_head (args : List Str) :
    ∀ c cs, Line.argsSuffix args = c :: cs → c = ' ' := by
  intro c cs h
  cases args with
  | nil => cases h
  | cons a rest =>
      cases rest with
      | nil =>
          injection h with h1 _
          exact h1.symm
      | cons b l =>
          injection h with h1 _
          exact h1.symm

end IMMP


namespace IMMP

/-- Round-trip engine: a tag-free Line with a grammatical command, a
well-formed source and well-formed args decodes from its own encoding back
to itself.  This is the content behind the amended codec round-trip
claim. -/
theorem parse_encode_of_good (cmd : Str) (args : List Str) (src : Option Str)
    (hc : goodCmd cmd) (hs : goodSource src)
    (hmid : ∀ a ∈ args.dropLast, goodMidArg a)
    (hlast : ∀ a, args.getLast? = some a → goodLastArg a) :
    (Line.encode ⟨cmd, args, src, []⟩).bind Line.parse =
      some ⟨cmd, args, src, []⟩ := by
  obtain ⟨c0, ct, hcmd0, hc0⟩ := goodCmd_head cmd hc
  subst hcmd0
  have hc0at : c0 ≠ '@' := by
    rcases hc0 with h | h
    · exact bool_pred_ne h (by decide)
    · exact bool_pred_ne h (by decide)
  have hc0colon : c0 ≠ ':' := by
    rcases hc0 with h | h
    · exact bool_pred_ne h (by decide)
    · exact bool_pred_ne h (by decide)
  have hc0sp : c0 ≠ ' ' := by
    rcases hc0 with h | h
    · exact bool_pred_ne h (by decide)
    · exact bool_pred_ne h (by decide)
  rcases List.eq_nil_or_concat args with rfl | ⟨mids, last, hargs⟩
  · -- no args: the encoded line is just the (source-prefixed) command
    have h3 : Line.parseCmd (c0 :: ct) = some (c0 :: ct, []) := by
      have := parseCmd_app (c0 :: ct) [] hc (by intro c cs h; cases h)
      simpa using this
    cases src with
    | none =>
        have h1 : Line.tryTags (c0 :: ct) = none := tryTags_not_at c0 ct hc0at
        have h2 : Line.trySource (c0 :: ct) = none := trySource_not_at c0 ct hc0colon
        simp only [Line.encode, Line.argsSuffix, List.append_nil, Option.some_bind]
        simp only [Line.parse, h1, h2, h3, Line.parseArgsRaw, List.length_nil,
                   Line.pySplit, Line.pySplitRaw, List.foldr_nil, List.filter_nil,
                   Line.tryTrailing, List.foldl_nil]
    | some s =>
        obtain ⟨hsne, hssp⟩ := hs
        have h1 : Line.tryTags (':' :: (s ++ ' ' :: c0 :: ct)) = none :=
          tryTags_not_at ':' _ (by decide)
        have h2 : Line.trySource (':' :: (s ++ ' ' :: c0 :: ct)) = some (s, c0 :: ct) := by
          apply trySource_app
          · exact hsne
          · intro ch hch he
            exact hssp (he ▸ hch)
          · intro c cs hcs
            injection hcs with hh _
            exact hh ▸ hc0sp
        simp only [Line.encode, Line.argsSuffix, List.append_nil, Option.some_bind,
                   List.cons_append]
        simp only [Line.parse, h1, h2, h3, Line.parseArgsRaw, List.length_nil,
                   Line.pySplit, Line.pySplitRaw, List.foldr_nil, List.filter_nil,
                   Line.tryTrailing, List.foldl_nil]
  · -- args = mids ++ [last]
    rw [List.concat_eq_append] at hargs
    subst hargs
    have hmid2 : ∀ a ∈ mids, goodMidArg a := by
      intro a ha
      apply hmid
      rw [List.dropLast_concat]
      exact ha
    obtain ⟨hlne, hlnl⟩ : goodLastArg last := by
      apply hlast
      rw [List.getLast?_concat]
    have h4 : Line.argsSuffix (mids ++ [last]) = midJoin mids ++ (' ' :: ':' :: last) :=
      argsSuffix_concat mids last
    have hfuel : mids.length + 1 ≤ (midJoin mids ++ (' ' :: ':' :: last)).length + 1 := by
      have := midJoin_length mids
      simp only [List.length_append]
      omega
    have h5 : Line.parseArgsRaw ((midJoin mids ++ (' ' :: ':' :: last)).length + 1)
        (midJoin mids ++ (' ' :: ':' :: last)) = (midJoin mids, ' ' :: ':' :: last) :=
      parseArgsRaw_mid mids _ _ hmid2 (Or.inr ⟨last, rfl⟩) hfuel
    have h6 : Line.pySplit (midJoin mids) = mids := pySplit_midJoin mids hmid2
    have h7 : Line.tryTrailing (' ' :: ':' :: last) = some last := by
      apply tryTrailing_app
      intro ch hch he
      exact hlnl (he ▸ hch)
    have h3 : Line.parseCmd (c0 :: (ct ++ (midJoin mids ++ (' ' :: ':' :: last)))) =
        some (c0 :: ct, midJoin mids ++ (' ' :: ':' :: last)) := by
      have hh := parseCmd_app (c0 :: ct) (midJoin mids ++ (' ' :: ':' :: last)) hc
        (by
          intro c cs hcs
          rcases midJoin_app_head mids (' ' :: ':' :: last)
              (Or.inr ⟨last, rfl⟩) with h | ⟨xs, h⟩
          · rw [h] at hcs; cases hcs
          · rw [h] at hcs
            injection hcs with hh2 _
            exact hh2.symm)
      simpa only [List.cons_append] using hh
    cases src with
    | none =>
        have h1 : Line.tryTags (c0 :: (ct ++ (midJoin mids ++ (' ' :: ':' :: last)))) =
            none := tryTags_not_at c0 _ hc0at
        have h2 : Line.trySource (c0 :: (ct ++ (midJoin mids ++ (' ' :: ':' :: last)))) =
            none := trySource_not_at c0 _ hc0colon
        simp only [Line.encode, h4, Option.some_bind, List.cons_append]
        simp only [Line.parse, h1, h2, h3, h5, h6, h7, List.foldl_nil]
        rw [if_neg hlne]
    | some s =>
        obtain ⟨hsne, hssp⟩ := hs
        have h1 : Line.tryTags (':' :: (s ++ ' ' :: c0 ::
            (ct ++ (midJoin mids ++ (' ' :: ':' :: last))))) = none :=
          tryTags_not_at ':' _ (by decide)
        have h2 : Line.trySource (':' :: (s ++ ' ' :: c0 ::
            (ct ++ (midJoin mids ++ (' ' :: ':' :: last))))) =
            some (s, c0 :: (ct ++ (midJoin mids ++ (' ' :: ':' :: last)))) := by
          apply trySource_app
          · exact hsne
          · intro ch hch he
            exact hssp (he ▸ hch)
          · intro c cs hcs
            injection hcs with hh _
            exact hh ▸ hc0sp
        simp only [Line.encode, h4, Option.some_bind, List.cons_append,
                   List.append_assoc]
        simp only [Line.parse, h1, h2, h3, h5, h6, h7, List.foldl_nil]
        rw [if_neg hlne]

end IMMP

namespace IMMP

/-! ## Lemmas: timestamp generator and the put loop -/

theorem now_gt (p t : Nat) : p < (Line.now p t).1 := by
  simp only [Line.now]
  omega

theorem nowSeq_pairwise (ts : List Nat) :
    ∀ p : Nat, List.Pairwise (· < ·) (nowSeq p ts) ∧ ∀ x ∈ nowSeq p ts, p < x := by
  induction ts with
  | nil => intro p; simp [nowSeq]
  | cons t ts ih =>
      intro p
      obtain ⟨hpw, hall⟩ := ih (max (p + 1) t)
      have hstep : nowSeq p (t :: ts) = max (p + 1) t :: nowSeq (max (p + 1) t) ts := rfl
      rw [hstep]
      refine ⟨List.pairwise_cons.2 ⟨hall, hpw⟩, ?_⟩
      intro x hx
      rcases List.mem_cons.1 hx with rfl | hx2
      · omega
      · have := hall x hx2
        omega

theorem fromLine_privmsg_some (nick a0 a1 src : Str) (rest : List Str) (p t : Nat) :
    ∃ m, fromLine nick ⟨privmsgCmd, a0 :: a1 :: rest, some src, []⟩ p t =
        some (m, (Line.now p t).2) ∧ m.id = (Line.now p t).1 := by
  simp only [fromLine]
  rw [if_neg (by decide), if_neg (by decide)]
  exact ⟨_, rfl, rfl⟩

theorem putGo_spec (ch : IChannel) (wall : Nat) (texts : List Str) :
    ∀ st : IRCState,
      ∃ ids st' echoes,
        IRCPlug.putGo ch wall st texts = some (ids, st') ∧
        st'.queue = st.queue ++ echoes ∧
        echoes.length = texts.length ∧
        ids = echoes.map (fun m => m.id) ∧
        st'.written = st.written ++ texts.map (fun text =>
          (⟨privmsgCmd, [ch.source, text], none, []⟩ : Line)) ∧
        st'.waits = st.waits ∧ st'.data = st.data ∧ st'.joins = st.joins ∧
        st'.nick = st.nick ∧ st'.source = st.source ∧ st'.realName = st.realName := by
  induction texts with
  | nil =>
      intro st
      exact ⟨[], st, [], rfl, by simp, rfl, rfl, by simp, rfl, rfl, rfl, rfl, rfl, rfl⟩
  | cons text rest ih =>
      intro st
      obtain ⟨m, hm, hmid⟩ :=
        fromLine_privmsg_some st.nick ch.source text st.source [] st.lastTs wall
      obtain ⟨ids, st', echoes, hgo, hq, hlen, hids, hw, h1, h2, h3, h4, h5, h6⟩ :=
        ih { st with
             written := st.written ++ [⟨privmsgCmd, [ch.source, text], none, []⟩]
             queue := st.queue ++ [m]
             lastTs := (Line.now st.lastTs wall).2 }
      refine ⟨m.id :: ids, st', m :: echoes, ?_, ?_, by simp [hlen], by simp [hids],
              ?_, by simpa using h1, by simpa using h2, by simpa using h3,
              by simpa using h4, by simpa using h5, by simpa using h6⟩
      · simp only [IRCPlug.putGo]
        rw [hm]
        dsimp only
        rw [hgo]
      · rw [hq]
        simp
      · rw [hw]
        simp

end IMMP

namespace IMMP

/-! ## Claims -/

/-- C3, counterexample: with a transport already registered under `"a"`,
`Host.add_transport` of a different transport named `"a"` raises no error
and silently replaces the registration — refuting the claim that adding a
transport under a taken name fails and leaves the registration
unchanged. -/
theorem C3_counterexample :
    (HostState.addTransport
        { transports := [("a", { name := "a", connected := false })],
          channels := [], receivers := [], running := false }
        { name := "a", connected := true }).transports =
      [("a", { name := "a", connected := true })] ∧
    ({ name := "a", connected := true } : Transport) ≠
      { name := "a", connected := false } := by
  constructor
  · rfl
  · decide

/-- C3 (amended): only `Host.create_transport` checks the registry — it
fails with `ConfigError` when the name is taken and registers nothing —
while `Host.add_transport` performs no duplicate check: it overwrites the
registration under the transport's name in place. -/
theorem C3_duplicate_transport_name (st : HostState) (name : String)
    (imported : ImportOutcome) (t0 : Transport)
    (h : dlookup st.transports name = some t0) :
    HostState.createTransport st name imported =
      Except.error (HostError.configError
        ("Transport name '" ++ name ++ "' already registered")) ∧
    ∀ t : Transport, dlookup (HostState.addTransport st t).transports t.name = some t := by
  constructor
  · simp [HostState.createTransport, h]
  · intro t
    simp [HostState.addTransport, dlookup_dinsert]

/-- Witness for C3 at a concrete registry. -/
theorem C3_duplicate_transport_name_witness :
    HostState.createTransport
        { transports := [("a", { name := "a", connected := false })],
          channels := [], receivers := [], running := false }
        "a" ImportOutcome.importFailed =
      Except.error (HostError.configError
        ("Transport name '" ++ "a" ++ "' already registered")) ∧
    dlookup (HostState.addTransport
        { transports := [("a", { name := "a", connected := false })],
          channels := [], receivers := [], running := false }
        { name := "a", connected := true }).transports "a" =
      some { name := "a", connected := true } := by
  have h := C3_duplicate_transport_name
      { transports := [("a", { name := "a", connected := false })],
        channels := [], receivers := [], running := false }
      "a" ImportOutcome.importFailed { name := "a", connected := false } (by decide)
  exact ⟨h.1, h.2 { name := "a", connected := true }⟩

/-- C4: `Host.add_channel` under an already-registered channel name, or
with an unknown transport name, raises `ConfigError`; and
`Host.remove_transport` of a transport whose `connected` flag is true
raises `RuntimeError`.  In each case the error is raised before any write,
so the returned `Except.error` carries no mutated registries: the state is
exactly as it was. -/
theorem C4_registry_atomicity (st : HostState) (name tname source : String) :
    ((dlookup st.channels name).isSome = true →
      HostState.addChannel st name tname source =
        Except.error (HostError.configError
          ("Channel name '" ++ name ++ "' already registered"))) ∧
    ((dlookup st.channels name).isSome = false →
      dlookup st.transports tname = none →
      HostState.addChannel st name tname source =
        Except.error (HostError.configError
          ("Channel transport '" ++ name ++ "' not registered"))) ∧
    (∀ t : Transport, dlookup st.transports tname = some t → t.connected = true →
      HostState.removeTransport st tname =
        Except.error (HostError.runtimeError
          ("Transport '" ++ tname ++ "' still connected"))) := by
  refine ⟨?_, ?_, ?_⟩
  · intro h
    simp [HostState.addChannel, h]
  · intro h1 h2
    cases hx : dlookup st.channels name with
    | some v => rw [hx] at h1; simp at h1
    | none => simp [HostState.addChannel, hx, h2]
  · intro t h1 h2
    simp [HostState.removeTransport, h1, h2]

/-- Witness for C4 at concrete registries for the three error paths. -/
theorem C4_registry_atomicity_witness :
    (HostState.addChannel
        { transports := [],
          channels := [("c", { name := some "c",
                               transport := { name := "t", connected := false },
                               source := "s" })],
          receivers := [], running := false } "c" "t" "s2" =
      Except.error (HostError.configError
        ("Channel name '" ++ "c" ++ "' already registered"))) ∧
    (HostState.addChannel
        { transports := [], channels := [], receivers := [], running := false }
        "c" "t" "s2" =
      Except.error (HostError.configError
        ("Channel transport '" ++ "c" ++ "' not registered"))) ∧
    (HostState.removeTransport
        { transports := [("t", { name := "t", connected := true })],
          channels := [], receivers := [], running := false } "t" =
      Except.error (HostError.runtimeError
        ("Transport '" ++ "t" ++ "' still connected"))) := by
  refine ⟨?_, ?_, ?_⟩
  · exact (C4_registry_atomicity _ "c" "t" "s2").1 (by decide)
  · exact (C4_registry_atomicity _ "c" "t" "s2").2.1 (by decide) (by decide)
  · exact (C4_registry_atomicity _ "c" "t" "s2").2.2
      { name := "t", connected := true } (by decide) rfl

/-- C5: `Host.resolve_channel` is total and pure — it returns a channel
with exactly the requested transport and source; when no registered
channel matches it synthesizes an unnamed one; and when some matches it
returns the first registered match in insertion order.  The registries are
never written (the function only reads the state). -/
theorem C5_resolve_channel (st : HostState) (t : Transport) (s : String) :
    ((HostState.resolveChannel st t s).transport = t ∧
     (HostState.resolveChannel st t s).source = s) ∧
    ((∀ ch ∈ st.channels.map Prod.snd, ¬(ch.transport = t ∧ ch.source = s)) →
      HostState.resolveChannel st t s = ⟨none, t, s⟩) ∧
    (∀ pre ch post, st.channels.map Prod.snd = pre ++ ch :: post →
      ch.transport = t ∧ ch.source = s →
      (∀ ch2 ∈ pre, ¬(ch2.transport = t ∧ ch2.source = s)) →
      HostState.resolveChannel st t s = ch) := by
  refine ⟨?_, ?_, ?_⟩
  · cases hfind : (st.channels.map Prod.snd).find?
        (fun ch => decide (ch.transport = t ∧ ch.source = s)) with
    | none =>
        simp only [HostState.resolveChannel, hfind]
        trivial
    | some ch =>
        have hp := List.find?_some hfind
        have hp2 : ch.transport = t ∧ ch.source = s := of_decide_eq_true hp
        simp only [HostState.resolveChannel, hfind]
        exact hp2
  · intro h
    have hfind : (st.channels.map Prod.snd).find?
        (fun ch => decide (ch.transport = t ∧ ch.source = s)) = none := by
      rw [List.find?_eq_none]
      intro ch hch
      simpa using h ch hch
    simp only [HostState.resolveChannel, hfind]
  · intro pre ch post hsplit hmatch hpre
    have hfind : ∀ pre2 : List HChannel, (∀ ch2 ∈ pre2, ¬(ch2.transport = t ∧ ch2.source = s)) →
        List.find? (fun c => decide (c.transport = t ∧ c.source = s)) (pre2 ++ ch :: post) =
          some ch := by
      intro pre2
      induction pre2 with
      | nil =>
          intro _
          simp only [List.nil_append]
          exact List.find?_cons_of_pos _ (decide_eq_true hmatch)
      | cons x xs ih =>
          intro hall
          rw [List.cons_append, List.find?_cons_of_neg _ (by
            simpa using hall x (by simp))]
          exact ih (fun y hy => hall y (by simp [hy]))
    simp only [HostState.resolveChannel, hsplit, hfind pre hpre]

/-- Witness for C5: an empty registry synthesizes an unnamed channel, and
a registry whose second entry matches returns that first matching
channel. -/
theorem C5_resolve_channel_witness :
    (HostState.resolveChannel
        { transports := [], channels := [], receivers := [], running := false }
        { name := "t", connected := false } "s" =
      { name := none, transport := { name := "t", connected := false }, source := "s" }) ∧
    (HostState.resolveChannel
        { transports := [],
          channels := [("x", { name := some "x",
                               transport := { name := "t", connected := false },
                               source := "other" }),
                       ("y", { name := some "y",
                               transport := { name := "t", connected := false },
                               source := "s" })],
          receivers := [], running := false }
        { name := "t", connected := false } "s" =
      { name := some "y", transport := { name := "t", connected := false }, source := "s" }) := by
  constructor
  · exact (C5_resolve_channel _ _ _).2.1 (by decide)
  · exact (C5_resolve_channel _ _ _).2.2
      [{ name := some "x", transport := { name := "t", connected := false }, source := "other" }]
      { name := some "y", transport := { name := "t", connected := false }, source := "s" }
      [] (by decide) (by decide) (by decide)

end IMMP

namespace IMMP

/-- Evaluation of `IRCPlug.handle` on a JOIN line for a channel other than
the configured nick: the handler always succeeds, and either suppresses
the event (when the joining user is the bot and the channel is pending in
`_joins`) or queues it. -/
theorem handle_join_eval (st : IRCState) (wall : Nat) (ch src : Str)
    (hch : ch ≠ st.nick) :
    ∃ st', IRCPlug.handle st wall ⟨joinCmd, [ch], some src, []⟩ = some st' ∧
      st'.nick = st.nick ∧ st'.source = st.source ∧ st'.waits = st.waits ∧
      ((pyNickOf src = pyNickOf st.source ∧ ch ∈ st.joins) →
        st'.queue = st.queue ∧ st'.joins = st.joins.erase ch) ∧
      (¬(pyNickOf src = pyNickOf st.source ∧ ch ∈ st.joins) →
        ∃ sent : SentMessage, st'.queue = st.queue ++ [sent] ∧
          sent.channel.source = ch ∧ st'.joins = st.joins) := by
  have hfl : ∀ st1 : IRCState, st1.nick = st.nick →
      fromLine st1.nick ⟨joinCmd, [ch], some src, []⟩ st1.lastTs wall =
      some ({ id := (Line.now st1.lastTs wall).1, channel := ⟨ch⟩,
              user := ⟨src, some (pyNickOf src), none⟩,
              text := joinedText ++ ch, action := true,
              joined := [⟨src, some (pyNickOf src), none⟩], left := [],
              raw := ⟨joinCmd, [ch], some src, []⟩ }, (Line.now st1.lastTs wall).2) := by
    intro st1 hn
    rw [hn]
    simp only [fromLine, if_true, if_neg hch]
  have e1 : ¬ (joinCmd = pingCmd) := by decide
  have e2 : (joinCmd = joinCmd ∨ joinCmd = partCmd ∨ joinCmd = privmsgCmd) := Or.inl rfl
  by_cases hcond : pyNickOf src = pyNickOf st.source ∧ ch ∈ st.joins
  · -- suppressed
    cases hbuf : dlookup st.data joinCmd with
    | none =>
        refine ⟨{ st with lastTs := (Line.now st.lastTs wall).2
                          joins := st.joins.erase ch }, ?_,
                rfl, rfl, rfl, fun _ => ⟨rfl, rfl⟩, fun h => absurd hcond h⟩
        simp only [IRCPlug.handle, hbuf]
        rw [if_neg e1]
        simp only [true_or, if_true]
        rw [hfl st rfl]
        simp [hcond.1, hcond.2]
    | some buf =>
        refine ⟨{ st with data := dinsert st.data joinCmd
                            (buf ++ [⟨joinCmd, [ch], some src, []⟩])
                          lastTs := (Line.now st.lastTs wall).2
                          joins := st.joins.erase ch }, ?_,
                rfl, rfl, rfl, fun _ => ⟨rfl, rfl⟩, fun h => absurd hcond h⟩
        simp only [IRCPlug.handle, hbuf]
        rw [if_neg e1]
        simp only [true_or, if_true]
        rw [hfl { st with data := dinsert st.data joinCmd
                            (buf ++ [⟨joinCmd, [ch], some src, []⟩]) } rfl]
        simp [hcond.1, hcond.2]
  · -- queued
    have hb : (decide (some (pyNickOf src) = some (pyNickOf st.source)) &&
        decide (ch ∈ st.joins)) = false := by
      rcases Decidable.not_and_iff_or_not.1 hcond with h | h
      · simp [h]
      · simp [h]
    cases hbuf : dlookup st.data joinCmd with
    | none =>
        refine ⟨{ st with lastTs := (Line.now st.lastTs wall).2
                          queue := st.queue ++
                            [{ id := (Line.now st.lastTs wall).1, channel := ⟨ch⟩,
                               user := ⟨src, some (pyNickOf src), none⟩,
                               text := joinedText ++ ch, action := true,
                               joined := [⟨src, some (pyNickOf src), none⟩], left := [],
                               raw := ⟨joinCmd, [ch], some src, []⟩ }] }, ?_,
                rfl, rfl, rfl, fun h => absurd h hcond, fun _ => ⟨_, rfl, rfl, rfl⟩⟩
        simp only [IRCPlug.handle, hbuf]
        rw [if_neg e1]
        simp only [true_or, if_true]
        rw [hfl st rfl]
        simp only [hb]
        rfl
    | some buf =>
        refine ⟨{ st with data := dinsert st.data joinCmd
                            (buf ++ [⟨joinCmd, [ch], some src, []⟩])
                          lastTs := (Line.now st.lastTs wall).2
                          queue := st.queue ++
                            [{ id := (Line.now st.lastTs wall).1, channel := ⟨ch⟩,
                               user := ⟨src, some (pyNickOf src), none⟩,
                               text := joinedText ++ ch, action := true,
                               joined := [⟨src, some (pyNickOf src), none⟩], left := [],
                               raw := ⟨joinCmd, [ch], some src, []⟩ }] }, ?_,
                rfl, rfl, rfl, fun h => absurd h hcond, fun _ => ⟨_, rfl, rfl, rfl⟩⟩
        simp only [IRCPlug.handle, hbuf]
        rw [if_neg e1]
        simp only [true_or, if_true]
        rw [hfl { st with data := dinsert st.data joinCmd
                            (buf ++ [⟨joinCmd, [ch], some src, []⟩]) } rfl]
        simp only [hb]
        rfl

end IMMP

namespace IMMP

/-- C7: self-join suppression — when a channel source is pending in
`self._joins` and a JOIN arrives whose joining user carries the bot's own
nick, `handle` drops the event (the inbound queue is unchanged) and
removes the source from the pending set; once the source is no longer
pending, a further self-join for it is queued as an event; and a join by
any other user is queued with the pending set untouched.  (The channel is
assumed distinct from the configured nick, as every `#`-prefixed pending
channel is.) -/
theorem C7_selfjoin_suppression (st : IRCState) (wall : Nat) (ch src src2 : Str)
    (hch : ch ≠ st.nick) (hself : pyNickOf src = pyNickOf st.source)
    (hother : pyNickOf src2 ≠ pyNickOf st.source) :
    (ch ∈ st.joins →
      ∃ st', IRCPlug.handle st wall ⟨joinCmd, [ch], some src, []⟩ = some st' ∧
        st'.queue = st.queue ∧ st'.joins = st.joins.erase ch) ∧
    (ch ∉ st.joins →
      ∃ st' sent, IRCPlug.handle st wall ⟨joinCmd, [ch], some src, []⟩ = some st' ∧
        st'.queue = st.queue ++ [sent] ∧ sent.channel.source = ch ∧
        st'.joins = st.joins) ∧
    (∃ st' sent, IRCPlug.handle st wall ⟨joinCmd, [ch], some src2, []⟩ = some st' ∧
      st'.queue = st.queue ++ [sent] ∧ st'.joins = st.joins) := by
  refine ⟨?_, ?_, ?_⟩
  · intro hmem
    obtain ⟨st', h1, _, _, _, hsup, _⟩ := handle_join_eval st wall ch src hch
    obtain ⟨hq, hj⟩ := hsup ⟨hself, hmem⟩
    exact ⟨st', h1, hq, hj⟩
  · intro hmem
    obtain ⟨st', h1, _, _, _, _, hqueue⟩ := handle_join_eval st wall ch src hch
    obtain ⟨sent, hq, hs, hj⟩ := hqueue (fun hc => hmem hc.2)
    exact ⟨st', sent, h1, hq, hs, hj⟩
  · obtain ⟨st', h1, _, _, _, _, hqueue⟩ := handle_join_eval st wall ch src2 hch
    obtain ⟨sent, hq, _, hj⟩ := hqueue (fun hc => hother hc.1)
    exact ⟨st', sent, h1, hq, hj⟩

/-- Witness for C7: with `#a` pending, the bot's own JOIN to `#a` is
dropped and the pending entry removed. -/
theorem C7_selfjoin_suppression_witness :
    (IRCPlug.handle
        { nick := "me".data, realName := "r".data, source := "me!u@h".data,
          waits := [], data := [], joins := ["#a".data], lastTs := 0,
          queue := [], written := [] } 5
        ⟨joinCmd, ["#a".data], some "me!x@y".data, []⟩).map
      (fun st' => (st'.queue.length, st'.joins)) = some (0, []) := by
  obtain ⟨st', h1, hq, hj⟩ :=
    (C7_selfjoin_suppression
      { nick := "me".data, realName := "r".data, source := "me!u@h".data,
        waits := [], data := [], joins := ["#a".data], lastTs := 0,
        queue := [], written := [] } 5 "#a".data "me!x@y".data "bob!x@y".data
      (by decide) (by decide) (by decide)).1 (by decide)
  rw [h1]
  simp [hq, hj]

/-- C10, counterexample: the redirection is not limited to PRIVMSG — a
JOIN line whose first argument equals the configured nick also has its
channel redirected to the sender's nick, where the claim requires the
first argument. -/
theorem C10_counterexample :
    (fromLine "me".data ⟨joinCmd, ["me".data], some "alice!u@h".data, []⟩ 0 5).map
        (fun r => r.1.channel.source) = some "alice".data ∧
    ("alice".data : Str) ≠ "me".data := by
  decide

/-- C10 (amended): for every line `from_line` translates — regardless of
command — the resulting channel source is the sender's nick (the source
prefix before the first `!`) when the line's first argument equals the
configured nick, and the first argument otherwise. -/
theorem C10_channel_redirect (nick cmd a0 : Str) (rest : List Str) (src : Str)
    (tags : List (Str × TagVal)) (p t : Nat) (m : SentMessage) (ts : Nat)
    (h : fromLine nick ⟨cmd, a0 :: rest, some src, tags⟩ p t = some (m, ts)) :
    m.channel.source = if a0 = nick then pyNickOf src else a0 := by
  simp only [fromLine] at h
  by_cases h1 : cmd = joinCmd
  · rw [if_pos h1] at h
    rw [Option.some.injEq, Prod.mk.injEq] at h
    obtain ⟨hm, _⟩ := h
    subst hm
    rfl
  · rw [if_neg h1] at h
    by_cases h2 : cmd = partCmd
    · rw [if_pos h2] at h
      rw [Option.some.injEq, Prod.mk.injEq] at h
      obtain ⟨hm, _⟩ := h
      subst hm
      rfl
    · rw [if_neg h2] at h
      cases rest with
      | nil => cases h
      | cons a1 r2 =>
          rw [Option.some.injEq, Prod.mk.injEq] at h
          obtain ⟨hm, _⟩ := h
          subst hm
          rfl

/-- Witness for C10: a private message to the bot is redirected to the
sender's nick. -/
theorem C10_channel_redirect_witness :
    ({ id := 5, channel := ⟨"alice".data⟩,
       user := { id := "alice!u@h".data, username := some "alice".data,
                 realName := none },
       text := "hi".data, action := false, joined := [], left := [],
       raw := ⟨privmsgCmd, ["me".data, "hi".data], some "alice!u@h".data, []⟩ } :
        SentMessage).channel.source =
      (if ("me".data : Str) = "me".data then pyNickOf "alice!u@h".data
       else "me".data) :=
  C10_channel_redirect "me".data privmsgCmd "me".data ["hi".data]
    "alice!u@h".data [] 0 5 _ 5 (by decide)

end IMMP

namespace IMMP

/-- C1, counterexample: the line `Line("cmd", "", "x")` satisfies the
claim's precondition — the arg before the last contains neither a space
nor a leading colon — yet `parse(str(line))` drops the empty argument:
the decoded args are `["x"]`, not `["", "x"]`. -/
theorem C1_counterexample :
    (Line.encode ⟨"cmd".data, ["".data, "x".data], none, []⟩).bind Line.parse =
      some ⟨"cmd".data, ["x".data], none, []⟩ ∧
    (["x".data] : List Str) ≠ ["".data, "x".data] := by
  constructor
  · decide
  · decide

/-- C1 (amended): the round trip holds for every tag-free Line whose
command matches the grammar (a letter run or three digits), whose source
is absent or non-empty and space-free, whose args before the last are
non-empty, whitespace-free and not colon-led, and whose last arg is
non-empty and newline-free: `Line.parse` of `Line.__str__` restores the
command, the args and the source exactly. -/
theorem C1_line_codec_roundtrip (cmd : Str) (args : List Str) (src : Option Str)
    (hc : goodCmd cmd) (hs : goodSource src)
    (hmid : ∀ a ∈ args.dropLast, goodMidArg a)
    (hlast : ∀ a, args.getLast? = some a → goodLastArg a) :
    (Line.encode ⟨cmd, args, src, []⟩).bind Line.parse =
      some ⟨cmd, args, src, []⟩ :=
  parse_encode_of_good cmd args src hc hs hmid hlast

/-- Witness for C1 at a concrete PRIVMSG line with source and a trailing
arg containing a space. -/
theorem C1_line_codec_roundtrip_witness :
    (Line.encode ⟨"PRIVMSG".data, ["#chan".data, "hello world".data],
        some "nick!u@h".data, []⟩).bind Line.parse =
      some ⟨"PRIVMSG".data, ["#chan".data, "hello world".data],
        some "nick!u@h".data, []⟩ :=
  C1_line_codec_roundtrip "PRIVMSG".data ["#chan".data, "hello world".data]
    (some "nick!u@h".data) (by decide) (by decide) (by decide)
    (by
      intro a ha
      have hv : (["#chan".data, "hello world".data] : List Str).getLast? =
          some "hello world".data := by decide
      rw [hv] at ha
      injection ha with h
      rw [← h]
      decide)

/-- C2, evaluation at the failing input: register a wait with fail command
`999` and collect command `352` on a clean state, let a `999` line arrive,
then complete the wait.  The completion raises (the result is an error,
as the claim says) but — because the source raises before its cleanup
loop — the `999` and `352` buffers are still registered afterwards,
where the claim requires all buffers for the registration to be
cleared. -/
theorem C2_fail_path_keeps_buffers :
    (((((IRCPlug.waitRegister
        { nick := "me".data, realName := "r".data, source := "me!u@h".data,
          waits := [], data := [], joins := [], lastTs := 0, queue := [],
          written := [] }
        "315".data ["999".data] ["352".data]).toOption).bind
      (fun st1 => IRCPlug.handle st1 5 ⟨"999".data, [], none, []⟩)).bind
      (fun st2 => IRCPlug.waitFinish st2 "315".data ["999".data] ["352".data])).map
      (fun r => (r.1.isOk, (dlookup r.2.data "999".data).isSome,
                 (dlookup r.2.data "352".data).isSome))) =
      some (false, true, true) := by
  decide

/-- C6, counterexample: sending a plain text message through `put` on a
state with an empty inbound queue leaves one echoed message in the queue
(and one written line), refuting the claim that the inbound event stream
is left unchanged. -/
theorem C6_counterexample :
    (IRCPlug.put
        { nick := "me".data, realName := "r".data, source := "me!u@h".data,
          waits := [], data := [], joins := [], lastTs := 0, queue := [],
          written := [] } 5 ⟨"#a".data⟩
        { text := some (MsgText.plain "hi".data), user := none, action := false,
          isSent := false, edited := false, attachments := [] }).map
      (fun r => (r.1, r.2.queue.length, r.2.written.length)) =
      some ([5], 1, 1) := by
  decide

/-- C6 (amended): `put` always succeeds, writes exactly one PRIVMSG line
per rendered text and returns the assigned ids — and each sent line also
re-enters the inbound event stream as a queued echo (translated back
through `from_line` with the bot as source); the wait buffers, waiter
list, pending-join set and identity fields are untouched. -/
theorem C6_put_effects (st : IRCState) (wall : Nat) (ch : IChannel)
    (msg : OutMessage) :
    ∃ ids st' echoes,
      IRCPlug.put st wall ch msg = some (ids, st') ∧
      st'.queue = st.queue ++ echoes ∧
      echoes.length = (IRCPlug.putLines msg).length ∧
      ids = echoes.map (fun m => m.id) ∧
      st'.written = st.written ++ (IRCPlug.putLines msg).map (fun text =>
        (⟨privmsgCmd, [ch.source, text], none, []⟩ : Line)) ∧
      st'.waits = st.waits ∧ st'.data = st.data ∧ st'.joins = st.joins ∧
      st'.nick = st.nick ∧ st'.source = st.source := by
  obtain ⟨ids, st', echoes, h1, h2, h3, h4, h5, h6, h7, h8, h9, h10, _⟩ :=
    putGo_spec ch wall (IRCPlug.putLines msg) st
  exact ⟨ids, st', echoes, h1, h2, h3, h4, h5, h6, h7, h8, h9, h10⟩

/-- C8: `Line.now` returns exactly `max(previous + 1, wall)` and stores
that value, so across any sequence of calls the returned timestamps are
strictly increasing — in particular two successive calls never return the
same value. -/
theorem C8_now_monotonic :
    (∀ p t, Line.now p t = (max (p + 1) t, max (p + 1) t)) ∧
    (∀ p ts, List.Pairwise (· < ·) (nowSeq p ts)) ∧
    (∀ p t1 t2, (Line.now p t1).1 < (Line.now (Line.now p t1).2 t2).1) := by
  refine ⟨fun p t => rfl, fun p ts => (nowSeq_pairwise ts p).1, fun p t1 t2 => ?_⟩
  simp only [Line.now]
  omega

/-- C9: malformed wire lines fail decoding — the empty string and a
string holding only a tag section (with or without its trailing space)
make `Line.parse` raise instead of returning a Line. -/
theorem C9_malformed_lines_fail :
    Line.parse "".data = none ∧ Line.parse "@a=b".data = none ∧
    Line.parse "@a=b ".data = none := by
  decide

end IMMP
